import Mathlib

/-!
Verification of the EEG blink trainer (`src/app.py`).

The app is a single-page quiz: it shows a 3-second window of EEG signal and
asks the user to classify it as a blink, a horizontal eye movement, or clean
data.  The logic embedded here covers:

* `has_event` / `check_artifacts` (app.py lines 74-92): ground-truth lookup of
  detected artifact events inside a time window;
* `t_idx_start` / `t_idx_stop` (app.py lines 120-121): conversion from a
  (start time, duration) pair to an index range via Python `int()`;
* `next_segment` (app.py lines 94-108): choosing a new window start time,
  either snapped near a random known event or uniformly at random;
* the submit handler (app.py lines 175-186) and session state
  (app.py lines 62-71), modelled as a state machine.

Times and the sample rate are modelled as rationals; event arrays as lists of
sample indices (the first column of the detector output), with `Option`
capturing a possibly-`None` array.  The random draws of `next_segment` are
passed in as explicit parameters.
-/

namespace EEGTrainer

/-- Model of `has_event` from `check_artifacts` (app.py lines 78-81): a `None` or empty
event array yields no match; otherwise the event sample indices are divided by
the sample rate and compared against the window with
`ev_times >= start_time` and `ev_times <= start_time + duration`
(a closed interval on both ends). -/
def has_event (events : Option (List ℕ)) (sfreq start_time duration : ℚ) : Bool :=
  match events with
  | none => false
  | some evs =>
      if evs.length = 0 then false
      else evs.any fun k =>
        decide (start_time ≤ (k : ℚ) / sfreq) &&
        decide ((k : ℚ) / sfreq ≤ start_time + duration)

/-- Model of `check_artifacts` (app.py lines 74-92): ground-truth label for a window,
with blink events checked before horizontal events, else clean. -/
def check_artifacts (blink horiz : Option (List ℕ))
    (sfreq start_time duration : ℚ) : String :=
  if has_event blink sfreq start_time duration then "Blink"
  else if has_event horiz sfreq start_time duration then "Horizontal Move"
  else "Clean / No Artifact"

/-- Python `int()` applied to a rational: truncation toward zero. -/
def pyInt (q : ℚ) : ℤ := if 0 ≤ q then ⌊q⌋ else ⌈q⌉

/-- Start index of the displayed window, app.py line 120:
`t_idx_start = int(start * raw.info['sfreq'])`. -/
def t_idx_start (start sfreq : ℚ) : ℤ := pyInt (start * sfreq)

/-- Stop index of the displayed window, app.py line 121:
`t_idx_stop = int((start + duration) * raw.info['sfreq'])`. -/
def t_idx_stop (start duration sfreq : ℚ) : ℤ := pyInt ((start + duration) * sfreq)

/-- Numpy clamp: `np.clip(x, lo, hi) = min (max x lo) hi`. -/
def clip (x lo hi : ℚ) : ℚ := min (max x lo) hi

/-- Session state (app.py lines 62-71): window start time, score, attempts,
reveal flag, and the (unused) last-result label. -/
structure SessionState where
  current_start_time : ℚ
  score : ℕ
  attempts : ℕ
  show_answer : Bool
  last_result : String
deriving Repr, DecidableEq

/-- Session-state defaults (app.py lines 62-71). -/
def initState : SessionState :=
  { current_start_time := 10, score := 0, attempts := 0,
    show_answer := false, last_result := "" }

/-- The submit handler (app.py lines 175-186): runs only when the answer is not
yet revealed; increments `attempts`, increments `score` iff the chosen label
equals the ground truth for the current 3-second window, and sets the reveal
flag. -/
def submit (user_choice : String) (blink horiz : Option (List ℕ)) (sfreq : ℚ)
    (s : SessionState) : SessionState :=
  if s.show_answer then s
  else
    let truth := check_artifacts blink horiz sfreq s.current_start_time 3
    { s with
        attempts := s.attempts + 1,
        score := if user_choice = truth then s.score + 1 else s.score,
        show_answer := true }

/-- Model of `next_segment` (app.py lines 94-108).  `coin` is the outcome of
`np.random.rand() > 0.5`; `i` the index drawn by `np.random.randint` over the
stacked event list; `u` the value drawn by `np.random.uniform(0, max_time)`;
`lastTime` is `raw.times[-1]`.  When the snap branch is taken and the stacked
event list is empty, `np.random.randint(0)` raises, modelled by `none`. -/
def next_segment (coin : Bool) (blink horiz : List ℕ) (i : ℕ) (u : ℚ)
    (lastTime sfreq : ℚ) (s : SessionState) : Option SessionState :=
  let max_time := lastTime - 5
  if coin then
    match (blink ++ horiz).get? i with
    | none => none
    | some k =>
        some { s with
                 current_start_time := clip ((k : ℚ) / sfreq - 1) 0 max_time,
                 show_answer := false }
  else
    some { s with current_start_time := u, show_answer := false }

/-- Reachable session states: the defaults, then any interleaving of submits
(app.py lines 175-186) and successful advances (app.py lines 188-191). -/
inductive Reachable (blink horiz : List ℕ) (sfreq lastTime : ℚ) :
    SessionState → Prop where
  | init : Reachable blink horiz sfreq lastTime initState
  | submit_step (s : SessionState) (choice : String) :
      Reachable blink horiz sfreq lastTime s →
      Reachable blink horiz sfreq lastTime (submit choice (some blink) (some horiz) sfreq s)
  | advance_step (s s' : SessionState) (coin : Bool) (i : ℕ) (u : ℚ) :
      Reachable blink horiz sfreq lastTime s →
      next_segment coin blink horiz i u lastTime sfreq s = some s' →
      Reachable blink horiz sfreq lastTime s'

/-- The match predicate of `has_event`, written out: some event's sample index,
divided by the sample rate, lies in the closed interval
`[start_time, start_time + duration]`. -/
theorem has_event_iff (evs : List ℕ) (sfreq start_time duration : ℚ) :
    has_event (some evs) sfreq start_time duration = true ↔
      ∃ k ∈ evs, start_time ≤ (k : ℚ) / sfreq ∧
        (k : ℚ) / sfreq ≤ start_time + duration := by
  cases evs with
  | nil => simp [has_event]
  | cons a l =>
      simp [has_event, List.any_eq_true, Bool.and_eq_true, decide_eq_true_iff]

/-- C1 counterexample.  The claim says a match is reported iff some event
time lies in the half-open window `[start_time, start_time + duration)`, and
that an EventSet containing an event at t = 12.4 s never matches the window
starting at 5.0 s of length 3.  Both parts fail on the code:
with sample rate 1 and one event at sample 15, the window `[12, 15)` excludes
the event time 15, yet `has_event` reports a match (the code compares with
`<=`, a closed interval); and with sample rate 5 and events at samples 30 and
62 (times 6.0 s and 12.4 s), the EventSet contains an event at 12.4 s, yet the
window starting at 5.0 s reports a match (the event at 6.0 s). -/
theorem C1_counterexample :
    (has_event (some [15]) 1 12 3 = true ∧
      ¬ ((12 : ℚ) ≤ (15 : ℚ) / 1 ∧ (15 : ℚ) / 1 < 12 + 3)) ∧
    (has_event (some [30, 62]) 5 5 3 = true ∧
      (62 : ℚ) / 5 = 62 / 5) := by
  refine ⟨⟨?_, ?_⟩, ?_, rfl⟩
  · exact (has_event_iff [15] 1 12 3).mpr ⟨15, List.mem_singleton.mpr rfl, by norm_num⟩
  · intro h
    have := h.2
    norm_num at this
  · exact (has_event_iff [30, 62] 5 5 3).mpr
      ⟨30, by simp, by norm_num⟩

/-- C1 (amended): `has_event` reports a match for an EventSet iff some event's
sample index, divided by the sample rate, lies in the closed interval
`[start_time, start_time + duration]`; in particular, every EventSet
containing an event at t = 12.4 s matches the window of length 3 starting at
12.0 s, and an EventSet containing only an event at t = 12.4 s does not match
the window of length 3 starting at 5.0 s. -/
theorem C1_ground_truth_lookup :
    (∀ (evs : List ℕ) (sfreq start_time duration : ℚ),
        has_event (some evs) sfreq start_time duration = true ↔
          ∃ k ∈ evs, start_time ≤ (k : ℚ) / sfreq ∧
            (k : ℚ) / sfreq ≤ start_time + duration) ∧
    (∀ (evs : List ℕ) (sfreq : ℚ), (∃ k ∈ evs, (k : ℚ) / sfreq = 62 / 5) →
        has_event (some evs) sfreq 12 3 = true) ∧
    (∀ (k : ℕ) (sfreq : ℚ), (k : ℚ) / sfreq = 62 / 5 →
        has_event (some [k]) sfreq 5 3 = false) := by
  refine ⟨has_event_iff, ?_, ?_⟩
  · rintro evs sfreq ⟨k, hk, hkt⟩
    exact (has_event_iff evs sfreq 12 3).mpr ⟨k, hk, by rw [hkt]; norm_num⟩
  · intro k sfreq hk
    rw [← Bool.not_eq_true]
    intro h
    rcases (has_event_iff [k] sfreq 5 3).mp h with ⟨m, hm, hlo, hhi⟩
    rw [List.mem_singleton] at hm
    subst hm
    rw [hk] at hhi
    norm_num at hhi

/-- C1 witness: the amended theorem applied at sample rate 5 and the singleton
EventSet with an event at sample 62 (t = 12.4 s). -/
theorem C1_witness :
    has_event (some [62]) 5 12 3 = true ∧ has_event (some [62]) 5 5 3 = false :=
  ⟨C1_ground_truth_lookup.2.1 [62] 5 ⟨62, List.mem_singleton.mpr rfl, by norm_num⟩,
   C1_ground_truth_lookup.2.2 62 5 (by norm_num)⟩

/-- C2: every submit performed while the answer is not yet revealed increments
`attempts` by exactly 1, increments `score` by exactly 1 when the submitted
choice equals the ground-truth label computed by `check_artifacts` for the
current window, and leaves `score` unchanged otherwise. -/
theorem C2_submit_scoring (choice : String) (blink horiz : Option (List ℕ))
    (sfreq : ℚ) (s : SessionState) (h : s.show_answer = false) :
    (submit choice blink horiz sfreq s).attempts = s.attempts + 1 ∧
    (choice = check_artifacts blink horiz sfreq s.current_start_time 3 →
      (submit choice blink horiz sfreq s).score = s.score + 1) ∧
    (choice ≠ check_artifacts blink horiz sfreq s.current_start_time 3 →
      (submit choice blink horiz sfreq s).score = s.score) := by
  refine ⟨?_, ?_, ?_⟩ <;> simp [submit, h]

/-- C2 witness: submitting "Blink" from the default state, whose 3-second
window starting at 10 s has no events at all, is wrong (truth is clean), so
attempts becomes 1 and score stays 0. -/
theorem C2_witness :
    (submit "Blink" none none 1 initState).attempts = initState.attempts + 1 ∧
    ("Blink" = check_artifacts none none 1 initState.current_start_time 3 →
      (submit "Blink" none none 1 initState).score = initState.score + 1) ∧
    ("Blink" ≠ check_artifacts none none 1 initState.current_start_time 3 →
      (submit "Blink" none none 1 initState).score = initState.score) :=
  C2_submit_scoring "Blink" none none 1 initState rfl

/-- C3: the label returned by `check_artifacts` follows the fixed priority
order: "Blink" whenever a blink event matches the window, otherwise
"Horizontal Move" whenever a horizontal event matches, otherwise
"Clean / No Artifact". -/
theorem C3_priority (blink horiz : Option (List ℕ)) (sfreq st d : ℚ) :
    (has_event blink sfreq st d = true →
      check_artifacts blink horiz sfreq st d = "Blink") ∧
    (has_event blink sfreq st d = false → has_event horiz sfreq st d = true →
      check_artifacts blink horiz sfreq st d = "Horizontal Move") ∧
    (has_event blink sfreq st d = false → has_event horiz sfreq st d = false →
      check_artifacts blink horiz sfreq st d = "Clean / No Artifact") := by
  refine ⟨?_, ?_, ?_⟩ <;> intro h <;> simp [check_artifacts, h]

/-- C3 witness: a blink event at sample 12 (sample rate 1) inside the window
`[10, 13]` makes the label "Blink" even when the horizontal set also has a
matching event at sample 11. -/
theorem C3_witness :
    check_artifacts (some [12]) (some [11]) 1 10 3 = "Blink" :=
  (C3_priority (some [12]) (some [11]) 1 10 3).1
    ((has_event_iff [12] 1 10 3).mpr ⟨12, List.mem_singleton.mpr rfl, by norm_num⟩)

/-- C4 counterexample.  The claim says the start index is
`round(start * sample_rate)`.  With start 1.9 s and sample rate 1, the code's
`int(1.9)` is 1 while `round(1.9)` is 2. -/
theorem C4_counterexample :
    t_idx_start (19 / 10) 1 = 1 ∧ round ((19 : ℚ) / 10 * 1) = 2 ∧ (1 : ℤ) ≠ 2 := by
  refine ⟨?_, ?_, by decide⟩
  · have : ((19 : ℚ) / 10) * 1 = 19 / 10 := by norm_num
    rw [t_idx_start, pyInt, this, if_pos (by norm_num)]
    rw [Int.floor_eq_iff]
    norm_num
  · rw [round_eq]
    rw [show (19 : ℚ) / 10 * 1 + 1 / 2 = 12 / 5 by norm_num]
    rw [Int.floor_eq_iff]
    norm_num

/-- C4 (amended): the window sampler converts (start, duration) to an index
range with inclusive start and exclusive stop, each computed by Python `int()`,
i.e. truncation toward zero; for the program's nonnegative times and sample
rate this is the floor: start index = ⌊start * sample_rate⌋ (the greatest
integer not exceeding start * sample_rate) and
stop index = ⌊(start + duration) * sample_rate⌋. -/
theorem C4_truncation (start duration sfreq : ℚ)
    (hs : 0 ≤ start) (hd : 0 ≤ duration) (hf : 0 ≤ sfreq) :
    t_idx_start start sfreq = ⌊start * sfreq⌋ ∧
    t_idx_stop start duration sfreq = ⌊(start + duration) * sfreq⌋ ∧
    (t_idx_start start sfreq : ℚ) ≤ start * sfreq ∧
    start * sfreq < t_idx_start start sfreq + 1 := by
  have h1 : t_idx_start start sfreq = ⌊start * sfreq⌋ := by
    rw [t_idx_start, pyInt, if_pos (mul_nonneg hs hf)]
  have h2 : t_idx_stop start duration sfreq = ⌊(start + duration) * sfreq⌋ := by
    rw [t_idx_stop, pyInt, if_pos (mul_nonneg (by linarith) hf)]
  refine ⟨h1, h2, ?_, ?_⟩
  · rw [h1]; exact Int.floor_le _
  · rw [h1]; exact Int.lt_floor_add_one _

/-- C4 witness: the amended theorem at start 1.9 s, duration 1 s, rate 1. -/
theorem C4_witness :
    t_idx_start (19 / 10) 1 = ⌊(19 / 10 : ℚ) * 1⌋ ∧
    t_idx_stop (19 / 10) 1 1 = ⌊((19 / 10 : ℚ) + 1) * 1⌋ ∧
    (t_idx_start (19 / 10) 1 : ℚ) ≤ (19 / 10 : ℚ) * 1 ∧
    (19 / 10 : ℚ) * 1 < t_idx_start (19 / 10) 1 + 1 :=
  C4_truncation (19 / 10) 1 1 (by norm_num) (by norm_num) (by norm_num)

/-- C5: whenever `next_segment` produces a new state, the new window start time
lies in `[0, lastTime - 3]` (the recording's duration minus the 3-second
displayed window), in both branches.  `lastTime` must cover the app's
5-second margin (the sample recording lasts about 277 s), and the uniform
draw `u` is within the range `np.random.uniform(0, max_time)` guarantees. -/
theorem C5_next_segment_range (coin : Bool) (blink horiz : List ℕ) (i : ℕ)
    (u lastTime sfreq : ℚ) (s s' : SessionState)
    (hT : 5 ≤ lastTime) (hu : coin = false → 0 ≤ u ∧ u ≤ lastTime - 5)
    (h : next_segment coin blink horiz i u lastTime sfreq s = some s') :
    0 ≤ s'.current_start_time ∧ s'.current_start_time ≤ lastTime - 3 := by
  cases coin with
  | false =>
      rcases hu rfl with ⟨h0, h5⟩
      simp only [next_segment, Bool.false_eq_true, if_false, Option.some.injEq] at h
      subst h
      exact ⟨h0, by linarith⟩
  | true =>
      simp only [next_segment, if_true] at h
      cases hk : (blink ++ horiz).get? i with
      | none => rw [hk] at h; exact absurd h (by simp)
      | some k =>
          rw [hk] at h
          simp only [Option.some.injEq] at h
          subst h
          constructor
          · exact le_min (le_max_right _ _) (by linarith)
          · exact le_trans (min_le_right _ _) (by linarith)

/-- C5 witness: the uniform branch from the default state with `lastTime` 10
and draw 0 lands at start time 0, inside `[0, 7]`. -/
theorem C5_witness :
    0 ≤ (SessionState.mk 0 0 0 false "").current_start_time ∧
    (SessionState.mk 0 0 0 false "").current_start_time ≤ 10 - 3 :=
  C5_next_segment_range false [] [] 0 0 10 1 initState
    (SessionState.mk 0 0 0 false "") (by norm_num)
    (fun _ => ⟨le_refl 0, by norm_num⟩) rfl

/-- C6: when the reveal flag is set, submit is a no-op — score, attempts,
reveal flag and start time are all unchanged — and every successful advance
through `next_segment` clears the reveal flag, returning to the
awaiting-answer state. -/
theorem C6_no_submit_from_revealed (choice : String)
    (blink horiz : Option (List ℕ)) (sfreq : ℚ) (s : SessionState)
    (coin : Bool) (bl hz : List ℕ) (i : ℕ) (u lastTime : ℚ) (s' : SessionState)
    (h : s.show_answer = true) :
    submit choice blink horiz sfreq s = s ∧
    (next_segment coin bl hz i u lastTime sfreq s = some s' →
      s'.show_answer = false) := by
  constructor
  · simp [submit, h]
  · intro hn
    cases coin with
    | false =>
        simp only [next_segment, Bool.false_eq_true, if_false,
          Option.some.injEq] at hn
        subst hn; rfl
    | true =>
        simp only [next_segment, if_true] at hn
        cases hk : (bl ++ hz).get? i with
        | none => rw [hk] at hn; exact absurd hn (by simp)
        | some k =>
            rw [hk] at hn
            simp only [Option.some.injEq] at hn
            subst hn; rfl

/-- C6 witness: from the revealed state reached by one submit from the
defaults, submitting again changes nothing, and advancing clears the flag. -/
theorem C6_witness :
    submit "Blink" none none 1 (submit "Blink" none none 1 initState) =
      submit "Blink" none none 1 initState ∧
    (next_segment false [] [] 0 0 10 1 (submit "Blink" none none 1 initState) =
        some (SessionState.mk 0 0 1 false "") →
      (SessionState.mk 0 0 1 false "").show_answer = false) :=
  C6_no_submit_from_revealed "Blink" none none 1
    (submit "Blink" none none 1 initState) false [] [] 0 0 10
    (SessionState.mk 0 0 1 false "") rfl

/-- C7: an empty EventSet (`None` or of length zero) never matches any window,
and with both the blink and horizontal EventSets empty `check_artifacts`
returns the clean label. -/
theorem C7_empty_no_match (sfreq st d : ℚ) :
    has_event none sfreq st d = false ∧
    has_event (some ([] : List ℕ)) sfreq st d = false ∧
    check_artifacts none none sfreq st d = "Clean / No Artifact" ∧
    check_artifacts (some []) (some []) sfreq st d = "Clean / No Artifact" := by
  refine ⟨rfl, rfl, ?_, ?_⟩ <;> simp [check_artifacts, has_event]

/-- C8 counterexample.  The claim says empty event lists abort the render with
a visible error; instead `has_event` (app.py line 79) treats an empty list as
no-match and the quiz proceeds, returning the clean label for any window, here
the window of length 3 starting at 10 s with sample rate 1. -/
theorem C8_counterexample :
    check_artifacts (some []) (some []) 1 10 3 = "Clean / No Artifact" ∧
    has_event (some ([] : List ℕ)) 1 10 3 = false := by
  constructor
  · simp [check_artifacts, has_event]
  · rfl

/-- C8 (amended): empty event lists do not abort the render — ground-truth
lookup treats them as no-match and `check_artifacts` returns the clean label,
so the quiz proceeds; the only operation that fails on empty event lists is
the event-snapping branch of `next_segment`, which has no event to draw when
both lists are empty (`np.random.randint(0)` raises), while its uniform
branch still succeeds. -/
theorem C8_empty_event_behavior :
    (∀ sfreq st d : ℚ,
        has_event (some ([] : List ℕ)) sfreq st d = false ∧
        check_artifacts (some []) (some []) sfreq st d = "Clean / No Artifact") ∧
    (∀ (i : ℕ) (u lastTime sfreq : ℚ) (s : SessionState),
        next_segment true [] [] i u lastTime sfreq s = none) ∧
    (∀ (i : ℕ) (u lastTime sfreq : ℚ) (s : SessionState),
        next_segment false [] [] i u lastTime sfreq s =
          some { s with current_start_time := u, show_answer := false }) := by
  refine ⟨?_, ?_, ?_⟩
  · intro sfreq st d
    exact ⟨rfl, by simp [check_artifacts, has_event]⟩
  · intro i u lastTime sfreq s
    simp [next_segment]
  · intro i u lastTime sfreq s
    simp [next_segment]

/-- C9: for nonnegative start, duration and sample rate, the number of samples
in the returned window — the stop index minus the start index as computed by
the window sampler — differs from `round(duration * sample_rate)` by at
most 1. -/
theorem C9_sample_count (start duration sfreq : ℚ)
    (hs : 0 ≤ start) (hd : 0 ≤ duration) (hf : 0 ≤ sfreq) :
    |t_idx_stop start duration sfreq - t_idx_start start sfreq -
      round (duration * sfreq)| ≤ 1 := by
  have hx : 0 ≤ start * sfreq := mul_nonneg hs hf
  have hxy : 0 ≤ (start + duration) * sfreq := mul_nonneg (by linarith) hf
  have h1 : t_idx_start start sfreq = ⌊start * sfreq⌋ := by
    rw [t_idx_start, pyInt, if_pos hx]
  have h2 : t_idx_stop start duration sfreq = ⌊(start + duration) * sfreq⌋ := by
    rw [t_idx_stop, pyInt, if_pos hxy]
  rw [h1, h2]
  set x := start * sfreq with hxdef
  set y := duration * sfreq with hydef
  have hsum : (start + duration) * sfreq = x + y := by ring
  rw [hsum]
  -- the window length ⌊x + y⌋ - ⌊x⌋ is within 1 of y
  have ha : (⌊x + y⌋ : ℚ) ≤ x + y := Int.floor_le _
  have hb : x + y - 1 < (⌊x + y⌋ : ℚ) := Int.sub_one_lt_floor _
  have hc : (⌊x⌋ : ℚ) ≤ x := Int.floor_le _
  have hd' : x - 1 < (⌊x⌋ : ℚ) := Int.sub_one_lt_floor _
  -- the rounded target is within 1/2 of y
  have hr : |y - round y| ≤ 1 / 2 := abs_sub_round y
  rw [abs_le] at hr
  -- combine: the integer difference has rational absolute value below 3/2
  have key : |((⌊x + y⌋ - ⌊x⌋ - round y : ℤ) : ℚ)| < 3 / 2 := by
    rw [abs_lt]
    push_cast
    constructor <;> linarith [hr.1, hr.2]
  have hlt2 : |⌊x + y⌋ - ⌊x⌋ - round y| < 2 := by
    have h32 : |((⌊x + y⌋ - ⌊x⌋ - round y : ℤ) : ℚ)| < 2 :=
      key.trans_le (by norm_num)
    exact_mod_cast h32
  rw [abs_le]
  rw [abs_lt] at hlt2
  omega

/-- C9 witness: start 0 s, duration 1 s, sample rate 10: the window holds 10
samples and `round(1 * 10) = 10`, difference 0. -/
theorem C9_witness :
    |t_idx_stop 0 1 10 - t_idx_start 0 10 - round ((1 : ℚ) * 10)| ≤ 1 :=
  C9_sample_count 0 1 10 (by norm_num) (by norm_num) (by norm_num)

/-- Helper: a successful `next_segment` changes neither counter. -/
theorem next_segment_counters (coin : Bool) (blink horiz : List ℕ) (i : ℕ)
    (u lastTime sfreq : ℚ) (s s' : SessionState)
    (h : next_segment coin blink horiz i u lastTime sfreq s = some s') :
    s'.score = s.score ∧ s'.attempts = s.attempts := by
  cases coin with
  | false =>
      simp only [next_segment, Bool.false_eq_true, if_false,
        Option.some.injEq] at h
      subst h; exact ⟨rfl, rfl⟩
  | true =>
      simp only [next_segment, if_true] at h
      cases hk : (blink ++ horiz).get? i with
      | none => rw [hk] at h; exact absurd h (by simp)
      | some k =>
          rw [hk] at h
          simp only [Option.some.injEq] at h
          subst h; exact ⟨rfl, rfl⟩

/-- C10: in every reachable session state, score ≤ attempts: both start at 0,
submit increments attempts by 1 and score by at most 1, and advancing changes
neither counter. -/
theorem C10_score_le_attempts (blink horiz : List ℕ) (sfreq lastTime : ℚ)
    (s : SessionState) (h : Reachable blink horiz sfreq lastTime s) :
    s.score ≤ s.attempts := by
  induction h with
  | init => exact le_refl 0
  | submit_step s choice _ ih =>
      by_cases hsa : s.show_answer
      · simp [submit, hsa]
        exact ih
      · by_cases hc :
          choice = check_artifacts (some blink) (some horiz) sfreq s.current_start_time 3
        · simp [submit, hsa, hc]
          omega
        · simp [submit, hsa, hc]
          omega
  | advance_step s s' coin i u _ hstep ih =>
      rcases next_segment_counters coin blink horiz i u lastTime sfreq s s' hstep
        with ⟨hsc, hat⟩
      rw [hsc, hat]
      exact ih

/-- C10 witness: the invariant at the state reached by one submit from the
defaults. -/
theorem C10_witness :
    (submit "Blink" (some []) (some []) 1 initState).score ≤
      (submit "Blink" (some []) (some []) 1 initState).attempts :=
  C10_score_le_attempts [] [] 1 10 _
    (Reachable.submit_step initState "Blink" Reachable.init)

end EEGTrainer
